import Mathlib

/-!
Verification development for the AST-based project scanner of the
multi-restaurant-platform repository (source file scan_project_ASTGemini.py).

The development shallow-embeds the entity-extraction pipeline:

* bytes are modelled as List Nat (each element a byte value),
* Python str values produced by decoding are modelled as List Nat of
  Unicode code points,
* tree-sitter nodes, queries and grammars are modelled as explicit data
  (the tree-sitter library is external to the repository; its objects are
  represented by the fields the scanner reads),
* Python dictionaries are modelled as association lists looked up at the
  first matching key (Python dict keys are unique, so this agrees with
  dict lookup),
* exceptions are modelled with Except; a for-loop body that may raise is
  modelled by a fold that stops at the first error, mirroring the
  try/except structure of the source.
-/

/-- Policy argument of Python bytes.decode for utf-8: the policy named
ignore drops each maximal invalid subpart, the policy named replace emits
one U+FFFD code point for each maximal invalid subpart. -/
inductive DecodePolicy
  | ignore
  | replace
deriving DecidableEq, Repr

/-- Emit the error marker demanded by the decode policy in front of the
already-decoded remainder: U+FFFD (65533) for replace, nothing for
ignore. -/
def errEmit (pol : DecodePolicy) (rest : List Nat) : List Nat :=
  match pol with
  | DecodePolicy.replace => 0xFFFD :: rest
  | DecodePolicy.ignore => rest

/-- Is the byte a UTF-8 continuation byte (0x80 to 0xBF)? -/
def isCont (b : Nat) : Bool :=
  decide (0x80 ≤ b ∧ b ≤ 0xBF)

/-- Intermediate state of the UTF-8 decoding automaton: acc is the code
point accumulated so far from the lead byte and any continuation bytes
already consumed, need is the number of continuation bytes still
expected, and lo and hi bound the admissible next byte (the RFC 3629
restricted ranges for the first continuation byte, 0x80 to 0xBF
afterwards). -/
structure Utf8State where
  acc : Nat
  need : Nat
  lo : Nat
  hi : Nat
deriving DecidableEq, Repr

/-- Transition of the decoding automaton on a byte read in the initial
state: either emit an ASCII code point, report an invalid lead byte, or
open a multi-byte sequence. Lead byte classification: 0x00-0x7F ASCII;
0x80-0xC1 invalid; 0xC2-0xDF two-byte; 0xE0-0xEF three-byte where 0xE0
requires a first continuation in 0xA0-0xBF and 0xED requires 0x80-0x9F
(excluding surrogates); 0xF0-0xF4 four-byte where 0xF0 requires
0x90-0xBF and 0xF4 requires 0x80-0x8F; 0xF5 and above invalid. -/
def utf8Start (pol : DecodePolicy) (b : Nat) : List Nat × Option Utf8State :=
  if b < 0x80 then ([b], none)
  else if b < 0xC2 then (errEmit pol [], none)
  else if b ≤ 0xDF then ([], some ⟨b - 0xC0, 1, 0x80, 0xBF⟩)
  else if b = 0xE0 then ([], some ⟨0, 2, 0xA0, 0xBF⟩)
  else if b = 0xED then ([], some ⟨13, 2, 0x80, 0x9F⟩)
  else if b ≤ 0xEF then ([], some ⟨b - 0xE0, 2, 0x80, 0xBF⟩)
  else if b = 0xF0 then ([], some ⟨0, 3, 0x90, 0xBF⟩)
  else if b = 0xF4 then ([], some ⟨4, 3, 0x80, 0x8F⟩)
  else if b ≤ 0xF4 then ([], some ⟨b - 0xF0, 3, 0x80, 0xBF⟩)
  else (errEmit pol [], none)

/-- Run of the UTF-8 decoding automaton over a byte list. On a byte
outside the admissible continuation range, the bytes consumed so far
form a maximal subpart of an ill-formed sequence: the policy marker is
emitted and the offending byte is reprocessed from the initial state; a
sequence left unfinished at the end of input likewise yields one
marker. This is the error behaviour of the CPython utf-8 codec with the
ignore and replace handlers. -/
def utf8Run (pol : DecodePolicy) : Option Utf8State → List Nat → List Nat
  | none, [] => []
  | some _, [] => errEmit pol []
  | none, b :: bs =>
    (utf8Start pol b).1 ++ utf8Run pol (utf8Start pol b).2 bs
  | some s, b :: bs =>
    if s.lo ≤ b ∧ b ≤ s.hi then
      if s.need = 1 then
        (s.acc * 64 + (b - 0x80)) :: utf8Run pol none bs
      else
        utf8Run pol (some ⟨s.acc * 64 + (b - 0x80), s.need - 1, 0x80, 0xBF⟩) bs
    else
      errEmit pol ((utf8Start pol b).1 ++ utf8Run pol (utf8Start pol b).2 bs)

/-- Python bytes.decode with the utf-8 codec: total, never failing; the
policy decides whether each maximal invalid subpart is dropped (errors
ignore) or replaced by U+FFFD (errors replace). -/
def utf8DecodeWith (pol : DecodePolicy) (bs : List Nat) : List Nat :=
  utf8Run pol none bs

/-- Code points of a Lean string literal, used for Python str constants
such as the sentinel Unnamed. -/
def strCodepoints (s : String) : List Nat :=
  s.data.map Char.toNat

/-- Python slice content_bytes[a:b] for nonnegative a, b: the elements
from index a up to (excluding) index b, clamped to the list. -/
def pySlice (l : List Nat) (a b : Nat) : List Nat :=
  (l.drop a).take (b - a)

/-- A tree-sitter syntax node as read by the scanner: byte offsets
start_byte and end_byte, and point coordinates start_point and
end_point, each a (row, column) pair (rows and columns 0-indexed). -/
structure Node where
  start_byte : Nat
  end_byte : Nat
  start_row : Nat
  start_col : Nat
  end_row : Nat
  end_col : Nat
deriving DecidableEq, Repr

/-- Lookup in a Python dict modelled as an association list: the first
binding of the key, if any (dict keys are unique, so first agrees with
the dict). Models d.get(k), k in d, and d[k]. -/
def alistGet {β : Type} : List (String × β) → String → Option β
  | [], _ => none
  | p :: ps, k => if p.1 = k then some p.2 else alistGet ps k

/-- One capture dictionary of a tree-sitter match as assumed by the
scanner: a mapping from capture label to node. The Except wrapper models
a value of an unexpected shape delivered by the bindings API: invoking a
dict method on it (such as values) raises, which the error branch
records; iterating over the enclosing list does not raise. -/
abbrev PyCaptureDict := Except String (List (String × Node))

/-- One element of query.matches: a pair of the pattern index and the
list of capture dictionaries of the match. -/
abbrev TSMatch := Nat × List PyCaptureDict

/-- A compiled tree-sitter query: its matches and captures against a
root node (root nodes are opaque handles, modelled as Nat). -/
structure TSQuery where
  tsMatches : Nat → List TSMatch
  tsCaptures : Nat → List (Node × String)

/-- A loaded tree-sitter language object: parsing bytes gives a tree
(modelled by the handle of its root node), and query compiles a pattern
string or raises. -/
structure TSLang where
  parseTree : List Nat → Nat
  query : String → Except String TSQuery

/-- One emitted code chunk (source lines 295-302): entity_name and
code_content are decoded Python strings, modelled as code point lists. -/
structure Chunk where
  file_path : String
  entity_type : String
  entity_name : List Nat
  start_line : Nat
  end_line : Nat
  code_content : List Nat
deriving DecidableEq, Repr

/-- A diagnostic printed to stderr by the scanner. Constructor arguments
keep the data interpolated into the message; free-text parts of the
messages are elided. -/
inductive Diag
  | noGrammarWarning (langExt filePath : String)
  | queryError (entityType filePath lang err queryStr : String)
  | grammarLoadOk (lang ext : String)
  | grammarLoadError (lang ext err : String)
  | grammarFileMissing
  | skipNotice (filePath : String)
  | astParsing (filePath : String)
  | criticalError (filePath err : String)
  | incompleteWarning
  | readError (filePath : String)
deriving DecidableEq, Repr

/-- The AST_PARSE_EXTS constant (source lines 39). -/
def AST_PARSE_EXTS : List String :=
  [".java", ".py", ".js", ".ts", ".go", ".rb", ".cs"]

/-- The LANGUAGE_GRAMMARS_CONFIG constant (source lines 70-76). -/
def LANGUAGE_GRAMMARS_CONFIG : List (String × String) :=
  [(".java", "java"), (".py", "python"),
   (".js", "javascript"), (".ts", "typescript")]

/-- One entry of AST_QUERIES: entity type tag, query pattern string and
the capture label holding the entity name (source lines 78-104). -/
structure EntityDef where
  entity_type : String
  query_str : String
  name_capture_key : String
deriving DecidableEq, Repr

/-- The AST_QUERIES constant (source lines 80-104). -/
def AST_QUERIES : List (String × List EntityDef) :=
  [("java",
    [⟨"CLASS", "(class_declaration name: (identifier) @name)", "name"⟩,
     ⟨"INTERFACE", "(interface_declaration name: (identifier) @name)", "name"⟩,
     ⟨"METHOD", "(method_declaration name: (identifier) @name)", "name"⟩,
     ⟨"CONSTRUCTOR", "(constructor_declaration name: (identifier) @name)", "name"⟩,
     ⟨"ENUM", "(enum_declaration name: (identifier) @name)", "name"⟩]),
   ("python",
    [⟨"CLASS", "(class_definition name: (identifier) @name)", "name"⟩,
     ⟨"FUNCTION", "(function_definition name: (identifier) @name)", "name"⟩]),
   ("javascript",
    [⟨"CLASS", "(class_declaration name: (identifier) @name)", "name"⟩,
     ⟨"FUNCTION", "(function_declaration name: (identifier) @name)", "name"⟩,
     ⟨"METHOD", "(method_definition name: (property_identifier) @name)", "name"⟩,
     ⟨"ARROW_FUNCTION_VARIABLE",
      "(lexical_declaration (variable_declarator name: (identifier) @name value: (arrow_function)))",
      "name"⟩]),
   ("typescript",
    [⟨"CLASS", "(class_declaration name: (type_identifier) @name)", "name"⟩,
     ⟨"INTERFACE", "(interface_declaration name: (type_identifier) @name)", "name"⟩,
     ⟨"FUNCTION", "(function_declaration name: (identifier) @name)", "name"⟩,
     ⟨"METHOD", "(method_definition name: (property_identifier) @name)", "name"⟩])]

/-- get_node_text (source lines 152-153): slice the content bytes at the
node byte span and decode with errors ignored. -/
def get_node_text (n : Node) (content_bytes : List Nat) : List Nat :=
  utf8DecodeWith DecodePolicy.ignore
    (pySlice content_bytes n.start_byte n.end_byte)

/-- Python min over a nonempty list with a Nat key (first argument is
the running best, initially the head): returns the first element
achieving the minimal key, as Python min does. -/
def pyMinBy {α : Type} (key : α → Nat) : α → List α → α
  | x, [] => x
  | x, y :: ys => if key y < key x then pyMinBy key y ys else pyMinBy key x ys

/-- Python max over a nonempty list with a Nat key: returns the first
element achieving the maximal key, as Python max does. -/
def pyMaxBy {α : Type} (key : α → Nat) : α → List α → α
  | x, [] => x
  | x, y :: ys => if key x < key y then pyMaxBy key y ys else pyMaxBy key x ys

/-- Force every capture dictionary of a match list to a well-shaped
dict; stops at the first ill-shaped element, as the list comprehension
of source line 274 raises at the first cap_dict without a values
method. -/
def sequenceDicts : List PyCaptureDict → Except String (List (List (String × Node)))
  | [] => Except.ok []
  | d :: ds =>
    match d with
    | Except.error e => Except.error e
    | Except.ok dd =>
      match sequenceDicts ds with
      | Except.error e => Except.error e
      | Except.ok rest => Except.ok (dd :: rest)

/-- The node list built at source line 274: all values of all capture
dictionaries of the match, in order. -/
def dictNodes : List (List (String × Node)) → List Node
  | [] => []
  | d :: rest => d.map (fun p => p.2) ++ dictNodes rest

/-- Name resolution of source lines 289-293: scan the capture
dictionaries in order, take the text of the node bound under the name
capture key in the first dictionary containing that key, defaulting to
the sentinel Unnamed. -/
def resolveName : List (List (String × Node)) → String → List Nat → List Nat
  | [], _, _ => strCodepoints "Unnamed"
  | d :: ds, k, content =>
    match alistGet d k with
    | some n => get_node_text n content
    | none => resolveName ds k content

/-- The first node bound under a capture label across the capture
dictionaries of a match (specification-side view of lines 289-293). -/
def firstNameNode : List (List (String × Node)) → String → Option Node
  | [], _ => none
  | d :: ds, k =>
    match alistGet d k with
    | some n => some n
    | none => firstNameNode ds k

/-- The chunk appended at source lines 295-302 for a match whose node
list is n0 :: ns: min_node is the first node of minimal start_byte,
max_node the first node of maximal end_byte (Python min and max with a
key); the span is sliced and decoded with errors ignored, the point
rows are converted from 0-indexed to 1-indexed, and the name is
resolved from the capture dictionaries. -/
def builtChunk (fp et nk : String) (content : List Nat)
    (dicts : List (List (String × Node))) (n0 : Node) (ns : List Node) : Chunk :=
  { file_path := fp
    entity_type := et
    entity_name := resolveName dicts nk content
    start_line := (pyMinBy (fun n => n.start_byte) n0 ns).start_row + 1
    end_line := (pyMaxBy (fun n => n.end_byte) n0 ns).end_row + 1
    code_content := utf8DecodeWith DecodePolicy.ignore
      (pySlice content
        (pyMinBy (fun n => n.start_byte) n0 ns).start_byte
        (pyMaxBy (fun n => n.end_byte) n0 ns).end_byte) }

/-- The loop body of source lines 259-302 for one match: skip matches
with an empty capture list, flatten the captured nodes (raising on an
ill-shaped capture dictionary), skip matches binding no node, and
otherwise build the chunk from the covering byte span, its line numbers
and the resolved name. -/
def processMatch (fp et nk : String) (content : List Nat) (m : TSMatch) :
    Except String (Option Chunk) :=
  if m.2.isEmpty then Except.ok none
  else
    match sequenceDicts m.2 with
    | Except.error e => Except.error e
    | Except.ok dicts =>
      match dictNodes dicts with
      | [] => Except.ok none
      | n0 :: ns => Except.ok (some (builtChunk fp et nk content dicts n0 ns))

/-- The second matches loop (source lines 259-302) over the whole match
list: chunks produced so far are kept; the first raising match aborts
the rest of the list and reports its error to the enclosing
try/except. -/
def runMatches (fp et nk : String) (content : List Nat) :
    List TSMatch → List Chunk × Option String
  | [] => ([], none)
  | m :: ms =>
    match processMatch fp et nk content m with
    | Except.error e => ([], some e)
    | Except.ok none => runMatches fp et nk content ms
    | Except.ok (some c) =>
      (c :: (runMatches fp et nk content ms).1,
       (runMatches fp et nk content ms).2)

/-- The first matches loop of source lines 210-256: every body of the
loop ends in pass, so iterating the matches, each capture list and
query.captures has no effect; the loop denotes the unit value. -/
def firstMatchesLoop (q : TSQuery) (root : Nat) : Unit :=
  (q.tsMatches root).foldl
    (fun _ m =>
      (q.tsCaptures root).foldl (fun _ _ => ())
        (m.2.foldl (fun _ _ => ()) ()))
    ()

/-- Processing of one EntityDefinition (source lines 203-306): compile
the query, run the first (effect-free) loop and then the second loop;
any raise inside the try block is caught and logged with the entity
type, file path, language and query string, keeping the chunks already
appended. -/
def processEntityDef (langName fp : String) (content : List Nat)
    (g : TSLang) (root : Nat) (d : EntityDef) : List Chunk × List Diag :=
  match g.query d.query_str with
  | Except.error e =>
    ([], [Diag.queryError d.entity_type fp langName e d.query_str])
  | Except.ok q =>
    let _ := firstMatchesLoop q root
    match (runMatches fp d.entity_type d.name_capture_key content (q.tsMatches root)).2 with
    | none =>
      ((runMatches fp d.entity_type d.name_capture_key content (q.tsMatches root)).1, [])
    | some e =>
      ((runMatches fp d.entity_type d.name_capture_key content (q.tsMatches root)).1,
       [Diag.queryError d.entity_type fp langName e d.query_str])

/-- The loop over queries_for_lang (source line 203): definitions are
processed in order, chunks and diagnostics concatenated. -/
def runDefs (langName fp : String) (content : List Nat) (g : TSLang)
    (root : Nat) : List EntityDef → List Chunk × List Diag
  | [] => ([], [])
  | d :: rest =>
    ((processEntityDef langName fp content g root d).1 ++
       (runDefs langName fp content g root rest).1,
     (processEntityDef langName fp content g root d).2 ++
       (runDefs langName fp content g root rest).2)

/-- parse_file_with_tree_sitter (source lines 188-307). The LANGUAGES
global is passed as the languages association list. The Except error
models the KeyError of the LANGUAGE_GRAMMARS_CONFIG subscript at line
201 escaping the function (caught by the caller in scan). -/
def parse_file_with_tree_sitter (languages : List (String × TSLang))
    (file_path lang_ext : String) (content_bytes : List Nat) :
    Except String (List Chunk × List Diag) :=
  match alistGet languages lang_ext with
  | none => Except.ok ([], [Diag.noGrammarWarning lang_ext file_path])
  | some g =>
    match alistGet LANGUAGE_GRAMMARS_CONFIG lang_ext with
    | none => Except.error "KeyError"
    | some langName =>
      Except.ok (runDefs langName file_path content_bytes g
        (g.parseTree content_bytes)
        ((alistGet AST_QUERIES langName).getD []))

/-- Variant of processEntityDef with the first matches loop (source
lines 210-256) removed; used to state that the first loop contributes
nothing to the result. -/
def processEntityDefNoFirstLoop (langName fp : String) (content : List Nat)
    (g : TSLang) (root : Nat) (d : EntityDef) : List Chunk × List Diag :=
  match g.query d.query_str with
  | Except.error e =>
    ([], [Diag.queryError d.entity_type fp langName e d.query_str])
  | Except.ok q =>
    match (runMatches fp d.entity_type d.name_capture_key content (q.tsMatches root)).2 with
    | none =>
      ((runMatches fp d.entity_type d.name_capture_key content (q.tsMatches root)).1, [])
    | some e =>
      ((runMatches fp d.entity_type d.name_capture_key content (q.tsMatches root)).1,
       [Diag.queryError d.entity_type fp langName e d.query_str])

/-- Loop over the definitions using the first-loop-free variant. -/
def runDefsNoFirstLoop (langName fp : String) (content : List Nat) (g : TSLang)
    (root : Nat) : List EntityDef → List Chunk × List Diag
  | [] => ([], [])
  | d :: rest =>
    ((processEntityDefNoFirstLoop langName fp content g root d).1 ++
       (runDefsNoFirstLoop langName fp content g root rest).1,
     (processEntityDefNoFirstLoop langName fp content g root d).2 ++
       (runDefsNoFirstLoop langName fp content g root rest).2)

/-- parse_file_with_tree_sitter with the first matches loop removed. -/
def parse_file_without_first_loop (languages : List (String × TSLang))
    (file_path lang_ext : String) (content_bytes : List Nat) :
    Except String (List Chunk × List Diag) :=
  match alistGet languages lang_ext with
  | none => Except.ok ([], [Diag.noGrammarWarning lang_ext file_path])
  | some g =>
    match alistGet LANGUAGE_GRAMMARS_CONFIG lang_ext with
    | none => Except.error "KeyError"
    | some langName =>
      Except.ok (runDefsNoFirstLoop langName file_path content_bytes g
        (g.parseTree content_bytes)
        ((alistGet AST_QUERIES langName).getD []))

/-- The per-extension body of _load_tree_sitter_languages (source lines
118-127): extensions outside AST_PARSE_EXTS are skipped; a successful
Language construction is recorded under the extension, a raising one is
logged once here (the two stderr lines of 126-127 are one diagnostic)
and the extension is left out. loadLang models the Language constructor
applied to the grammar file path and the language name. -/
def loadLangList (loadLang : String → Except String TSLang) :
    List (String × String) → List (String × TSLang) × List Diag
  | [] => ([], [])
  | p :: rest =>
    if AST_PARSE_EXTS.contains p.1 then
      match loadLang p.2 with
      | Except.ok g =>
        ((p.1, g) :: (loadLangList loadLang rest).1,
         Diag.grammarLoadOk p.2 p.1 :: (loadLangList loadLang rest).2)
      | Except.error e =>
        ((loadLangList loadLang rest).1,
         Diag.grammarLoadError p.2 p.1 e :: (loadLangList loadLang rest).2)
    else loadLangList loadLang rest

/-- _load_tree_sitter_languages (source lines 109-128): when the
compiled grammar file is missing, report once and load nothing;
otherwise load each configured extension; the returned Bool is the
truthiness of the LANGUAGES dict. -/
def loadTreeSitterLanguages (grammarFileExists : Bool)
    (loadLang : String → Except String TSLang) :
    List (String × TSLang) × List Diag × Bool :=
  if grammarFileExists then
    ((loadLangList loadLang LANGUAGE_GRAMMARS_CONFIG).1,
     (loadLangList loadLang LANGUAGE_GRAMMARS_CONFIG).2,
     !(loadLangList loadLang LANGUAGE_GRAMMARS_CONFIG).1.isEmpty)
  else ([], [Diag.grammarFileMissing], false)

/-- One file delivered to the scan loop by the directory walker: its
path relative to the root, its lower-cased extension, and the result of
reading its bytes (an error models an unreadable file, reported by
read_file_content_bytes). The walker itself (os.walk, directory
skipping, per-directory sorting and test-file exclusion, source lines
323-332) is the external collaborator of the pipeline and is modelled
by the input list. -/
structure FileEntry where
  relPath : String
  ext : String
  content : Except String (List Nat)

/-- The per-file dispatch of scan (source lines 334-347): files with a
parseable extension and a loaded grammar are parsed (a falsy read
result, None or empty bytes, skips parsing; an exception escaping
parse_file_with_tree_sitter is caught and logged as critical); files
with a parseable extension but no loaded grammar get a per-file skip
notice; other files are ignored by this loop. -/
def scanFileStep (langs : List (String × TSLang)) (f : FileEntry) :
    List Chunk × List Diag :=
  if AST_PARSE_EXTS.contains f.ext && (alistGet langs f.ext).isSome then
    match f.content with
    | Except.error _ => ([], [Diag.astParsing f.relPath, Diag.readError f.relPath])
    | Except.ok bs =>
      if bs.isEmpty then ([], [Diag.astParsing f.relPath])
      else
        match parse_file_with_tree_sitter langs f.relPath f.ext bs with
        | Except.ok r => (r.1, Diag.astParsing f.relPath :: r.2)
        | Except.error e =>
          ([], [Diag.astParsing f.relPath, Diag.criticalError f.relPath e])
  else if AST_PARSE_EXTS.contains f.ext && !(alistGet langs f.ext).isSome then
    ([], [Diag.skipNotice f.relPath])
  else ([], [])

/-- The scan loop over all files, in walker order, concatenating chunks
(the all_chunks accumulator) and diagnostics. -/
def scanFiles (langs : List (String × TSLang)) :
    List FileEntry → List Chunk × List Diag
  | [] => ([], [])
  | f :: fs =>
    ((scanFileStep langs f).1 ++ (scanFiles langs fs).1,
     (scanFileStep langs f).2 ++ (scanFiles langs fs).2)

/-- scan (source lines 313-348) restricted to its entity-extraction
behaviour: load the grammars once, optionally warn when nothing loaded,
then process every file; the JSON serialization of the result (lines
349-363) is the downstream collaborator and is not modelled. -/
def scan (grammarFileExists : Bool)
    (loadLang : String → Except String TSLang)
    (files : List FileEntry) : List Chunk × List Diag :=
  ((scanFiles (loadTreeSitterLanguages grammarFileExists loadLang).1 files).1,
   (loadTreeSitterLanguages grammarFileExists loadLang).2.1 ++
     (if !(loadTreeSitterLanguages grammarFileExists loadLang).2.2 &&
         LANGUAGE_GRAMMARS_CONFIG.any (fun p => AST_PARSE_EXTS.contains p.1)
      then [Diag.incompleteWarning] else []) ++
     (scanFiles (loadTreeSitterLanguages grammarFileExists loadLang).1 files).2)

/-- Does the diagnostic report a grammar load failure for the given
language name? -/
def isLoadErrorFor (lname : String) : Diag → Bool
  | Diag.grammarLoadError l _ _ => l == lname
  | _ => false

/-- Consistency of a tree-sitter node with its source file: byte
offsets are ordered and the point rows are the rows of the byte
offsets under the position-to-row function of the file. Real
tree-sitter nodes satisfy this because points and byte offsets are
derived from the same source positions. -/
def NodeConsistent (rowOf : Nat → Nat) (n : Node) : Prop :=
  n.start_byte ≤ n.end_byte ∧
  n.start_row = rowOf n.start_byte ∧ n.end_row = rowOf n.end_byte

/-- Concrete node used by the concrete runs below: spans bytes 0 to 1
of the file, on row 0. -/
def exNode : Node := ⟨0, 1, 0, 0, 0, 1⟩

/-- Concrete capture dictionary binding the label name to exNode. -/
def exDictOk : List (String × Node) := [("name", exNode)]

/-- Concrete well-shaped match with one capture dictionary. -/
def exMatch : TSMatch := (0, [Except.ok exDictOk])

/-- Concrete ill-shaped match: its capture entry raises when its dict
methods are invoked. -/
def exBadMatch : TSMatch := (1, [Except.error "AttributeError"])

/-- Concrete match with an empty capture list. -/
def exEmptyMatch : TSMatch := (2, [])

/-- Concrete query: one well-shaped match, no captures. -/
def exQuery : TSQuery where
  tsMatches := fun _ => [exMatch]
  tsCaptures := fun _ => []

/-- Concrete language whose every pattern compiles to exQuery. -/
def exLang : TSLang where
  parseTree := fun _ => 0
  query := fun _ => Except.ok exQuery

/-- Concrete LANGUAGES table mapping .py to exLang. -/
def exLanguages : List (String × TSLang) := [(".py", exLang)]

/-- Concrete file content: the single byte 0xFF, which is not valid
UTF-8. -/
def exContent : List Nat := [255]

/-- The chunk emitted for the CLASS definition on the concrete run. -/
def exChunkClass : Chunk :=
  { file_path := "m.py", entity_type := "CLASS", entity_name := []
    start_line := 1, end_line := 1, code_content := [] }

/-- The chunk emitted for the FUNCTION definition on the concrete
run. -/
def exChunkFun : Chunk :=
  { file_path := "m.py", entity_type := "FUNCTION", entity_name := []
    start_line := 1, end_line := 1, code_content := [] }

/-- Concrete query whose match list has a well-shaped match, an
ill-shaped one, then another well-shaped one. -/
def exQueryBad : TSQuery where
  tsMatches := fun _ => [exMatch, exBadMatch, exMatch]
  tsCaptures := fun _ => []

/-- Concrete language used for the non-atomicity run. -/
def exLangBad : TSLang where
  parseTree := fun _ => 0
  query := fun _ => Except.ok exQueryBad

/-- Concrete language whose patterns never compile. -/
def exLangNoCompile : TSLang where
  parseTree := fun _ => 0
  query := fun _ => Except.error "Invalid node type"

/-- The python CLASS entity definition of AST_QUERIES. -/
def pyClassDef : EntityDef :=
  ⟨"CLASS", "(class_definition name: (identifier) @name)", "name"⟩

/-- The python FUNCTION entity definition of AST_QUERIES. -/
def pyFunDef : EntityDef :=
  ⟨"FUNCTION", "(function_definition name: (identifier) @name)", "name"⟩

/-- Concrete grammar loader whose python grammar fails to load and
whose other grammars load to exLang. -/
def exLoadLang : String → Except String TSLang :=
  fun lname =>
    if lname = "python" then Except.error "Incompatible Language version"
    else Except.ok exLang

/-- Concrete scan input: a java file, a python file and a ruby file. -/
def exFiles : List FileEntry :=
  [⟨"A.java", ".java", Except.ok [97]⟩,
   ⟨"m.py", ".py", Except.ok exContent⟩,
   ⟨"r.rb", ".rb", Except.ok [98]⟩]

/-- The element returned by Python min with a key is a member of the
scanned list. -/
theorem pyMinBy_mem {α : Type} (key : α → Nat) (x : α) (xs : List α) :
    pyMinBy key x xs ∈ x :: xs := by
  induction xs generalizing x with
  | nil => simp [pyMinBy]
  | cons y ys ih =>
    by_cases h : key y < key x
    · have h2 := ih y
      simp only [pyMinBy, if_pos h]
      exact List.mem_cons_of_mem x h2
    · have h2 := ih x
      simp only [pyMinBy, if_neg h]
      rcases List.mem_cons.mp h2 with h3 | h3
      · rw [h3]; exact List.mem_cons_self _ _
      · exact List.mem_cons_of_mem x (List.mem_cons_of_mem y h3)

/-- The element returned by Python min with a key has the minimal key
over the scanned list. -/
theorem pyMinBy_le {α : Type} (key : α → Nat) (x : α) (xs : List α) :
    ∀ y ∈ x :: xs, key (pyMinBy key x xs) ≤ key y := by
  induction xs generalizing x with
  | nil =>
    intro y hy
    rw [List.mem_singleton.mp hy]
    simp [pyMinBy]
  | cons z zs ih =>
    intro y hy
    by_cases h : key z < key x
    · simp only [pyMinBy, if_pos h]
      rcases List.mem_cons.mp hy with h3 | h3
      · rw [h3]
        exact Nat.le_of_lt (Nat.lt_of_le_of_lt (ih z z (List.mem_cons_self _ _)) h)
      · exact ih z y h3
    · simp only [pyMinBy, if_neg h]
      rcases List.mem_cons.mp hy with h3 | h3
      · rw [h3]; exact ih x x (List.mem_cons_self _ _)
      · rcases List.mem_cons.mp h3 with h4 | h4
        · rw [h4]
          exact Nat.le_trans (ih x x (List.mem_cons_self _ _)) (Nat.le_of_not_lt h)
        · exact ih x y (List.mem_cons_of_mem x h4)

/-- The element returned by Python max with a key is a member of the
scanned list. -/
theorem pyMaxBy_mem {α : Type} (key : α → Nat) (x : α) (xs : List α) :
    pyMaxBy key x xs ∈ x :: xs := by
  induction xs generalizing x with
  | nil => simp [pyMaxBy]
  | cons y ys ih =>
    by_cases h : key x < key y
    · have h2 := ih y
      simp only [pyMaxBy, if_pos h]
      exact List.mem_cons_of_mem x h2
    · have h2 := ih x
      simp only [pyMaxBy, if_neg h]
      rcases List.mem_cons.mp h2 with h3 | h3
      · rw [h3]; exact List.mem_cons_self _ _
      · exact List.mem_cons_of_mem x (List.mem_cons_of_mem y h3)

/-- The element returned by Python max with a key has the maximal key
over the scanned list. -/
theorem pyMaxBy_ge {α : Type} (key : α → Nat) (x : α) (xs : List α) :
    ∀ y ∈ x :: xs, key y ≤ key (pyMaxBy key x xs) := by
  induction xs generalizing x with
  | nil =>
    intro y hy
    rw [List.mem_singleton.mp hy]
    simp [pyMaxBy]
  | cons z zs ih =>
    intro y hy
    by_cases h : key x < key z
    · simp only [pyMaxBy, if_pos h]
      rcases List.mem_cons.mp hy with h3 | h3
      · rw [h3]
        exact Nat.le_of_lt (Nat.lt_of_lt_of_le h (ih z z (List.mem_cons_self _ _)))
      · exact ih z y h3
    · simp only [pyMaxBy, if_neg h]
      rcases List.mem_cons.mp hy with h3 | h3
      · rw [h3]; exact ih x x (List.mem_cons_self _ _)
      · rcases List.mem_cons.mp h3 with h4 | h4
        · rw [h4]
          exact Nat.le_trans (Nat.le_of_not_lt h) (ih x x (List.mem_cons_self _ _))
        · exact ih x y (List.mem_cons_of_mem x h4)

/-- Every dictionary delivered by a successful sequenceDicts is one of
the well-shaped entries of the original list. -/
theorem sequenceDicts_ok_mem {l : List PyCaptureDict}
    {ds : List (List (String × Node))}
    (h : sequenceDicts l = Except.ok ds) :
    ∀ dd ∈ ds, Except.ok dd ∈ l := by
  induction l generalizing ds with
  | nil =>
    simp only [sequenceDicts, Except.ok.injEq] at h
    subst h
    simp
  | cons d rest ih =>
    cases d with
    | error e => simp [sequenceDicts] at h
    | ok dd0 =>
      simp only [sequenceDicts] at h
      cases hs : sequenceDicts rest with
      | error e => rw [hs] at h; cases h
      | ok ds0 =>
        rw [hs] at h
        simp only [Except.ok.injEq] at h
        subst h
        intro dd hdd
        rcases List.mem_cons.mp hdd with h3 | h3
        · rw [h3]; exact List.mem_cons_self _ _
        · exact List.mem_cons_of_mem _ (ih hs dd h3)

/-- Every node of the flattened node list of a match is the value of a
binding of one of its capture dictionaries. -/
theorem dictNodes_mem {ds : List (List (String × Node))} {n : Node}
    (h : n ∈ dictNodes ds) :
    ∃ dd ∈ ds, ∃ p ∈ dd, p.2 = n := by
  induction ds with
  | nil => simp [dictNodes] at h
  | cons d rest ih =>
    simp only [dictNodes, List.mem_append] at h
    rcases h with h | h
    · rcases List.mem_map.mp h with ⟨p, hp, hpn⟩
      exact ⟨d, List.mem_cons_self _ _, p, hp, hpn⟩
    · rcases ih h with ⟨dd, hdd, p, hp, hpn⟩
      exact ⟨dd, List.mem_cons_of_mem _ hdd, p, hp, hpn⟩

/-- A successfully emitted chunk of processMatch comes from a
well-shaped match with a nonempty node list and equals the chunk built
at source lines 295-302. -/
theorem processMatch_ok_some {fp et nk : String} {content : List Nat}
    {m : TSMatch} {c : Chunk}
    (h : processMatch fp et nk content m = Except.ok (some c)) :
    ∃ dicts n0 ns, sequenceDicts m.2 = Except.ok dicts ∧
      dictNodes dicts = n0 :: ns ∧
      c = builtChunk fp et nk content dicts n0 ns := by
  unfold processMatch at h
  by_cases he : m.2.isEmpty
  · simp [he] at h
  · rw [if_neg (by simpa using he)] at h
    cases hs : sequenceDicts m.2 with
    | error e => rw [hs] at h; cases h
    | ok dicts =>
      rw [hs] at h
      dsimp only at h
      cases hn : dictNodes dicts with
      | nil => rw [hn] at h; simp at h
      | cons n0 ns =>
        rw [hn] at h
        dsimp only at h
        simp only [Except.ok.injEq, Option.some.injEq] at h
        exact ⟨dicts, n0, ns, rfl, hn, h.symm⟩

/-- A well-shaped match binding at least one node makes processMatch
emit exactly the chunk built at source lines 295-302. -/
theorem processMatch_emits {fp et nk : String} {content : List Nat}
    {m : TSMatch} {dicts : List (List (String × Node))}
    {n0 : Node} {ns : List Node}
    (hs : sequenceDicts m.2 = Except.ok dicts)
    (hn : dictNodes dicts = n0 :: ns) :
    processMatch fp et nk content m =
      Except.ok (some (builtChunk fp et nk content dicts n0 ns)) := by
  have hne : m.2.isEmpty = false := by
    cases hm : m.2 with
    | nil =>
      rw [hm] at hs
      simp only [sequenceDicts, Except.ok.injEq] at hs
      rw [← hs] at hn
      simp [dictNodes] at hn
    | cons a b => simp
  unfold processMatch
  rw [if_neg (by simp [hne]), hs]
  dsimp only
  rw [hn]

/-- Every chunk produced by the second matches loop comes from one of
its matches via processMatch. -/
theorem runMatches_chunks_mem {fp et nk : String} {content : List Nat}
    {ms : List TSMatch} {c : Chunk}
    (h : c ∈ (runMatches fp et nk content ms).1) :
    ∃ m ∈ ms, processMatch fp et nk content m = Except.ok (some c) := by
  induction ms with
  | nil => simp [runMatches] at h
  | cons m rest ih =>
    cases hp : processMatch fp et nk content m with
    | error e => simp [runMatches, hp] at h
    | ok r =>
      cases r with
      | none =>
        rw [runMatches, hp] at h
        rcases ih h with ⟨m2, hm2, hp2⟩
        exact ⟨m2, List.mem_cons_of_mem _ hm2, hp2⟩
      | some c0 =>
        rw [runMatches, hp] at h
        rcases List.mem_cons.mp h with h2 | h2
        · exact ⟨m, List.mem_cons_self _ _, by rw [hp, h2]⟩
        · rcases ih h2 with ⟨m2, hm2, hp2⟩
          exact ⟨m2, List.mem_cons_of_mem _ hm2, hp2⟩

/-- Every chunk of one definition run comes from its compiled query via
the second matches loop. -/
theorem processEntityDef_chunks_mem {langName fp : String}
    {content : List Nat} {g : TSLang} {root : Nat} {d : EntityDef} {c : Chunk}
    (h : c ∈ (processEntityDef langName fp content g root d).1) :
    ∃ q, g.query d.query_str = Except.ok q ∧
      c ∈ (runMatches fp d.entity_type d.name_capture_key content
            (q.tsMatches root)).1 := by
  cases hq : g.query d.query_str with
  | error e => simp [processEntityDef, hq] at h
  | ok q =>
    refine ⟨q, rfl, ?_⟩
    unfold processEntityDef at h
    rw [hq] at h
    dsimp only at h
    cases hr : (runMatches fp d.entity_type d.name_capture_key content
        (q.tsMatches root)).2 with
    | none => rw [hr] at h; exact h
    | some e => rw [hr] at h; exact h

/-- Every chunk of the definitions loop comes from one of the entity
definitions. -/
theorem runDefs_chunks_mem {langName fp : String} {content : List Nat}
    {g : TSLang} {root : Nat} {defs : List EntityDef} {c : Chunk}
    (h : c ∈ (runDefs langName fp content g root defs).1) :
    ∃ d ∈ defs, c ∈ (processEntityDef langName fp content g root d).1 := by
  induction defs with
  | nil => simp [runDefs] at h
  | cons d rest ih =>
    rw [runDefs] at h
    rcases List.mem_append.mp h with h2 | h2
    · exact ⟨d, List.mem_cons_self _ _, h2⟩
    · rcases ih h2 with ⟨d2, hd2, h3⟩
      exact ⟨d2, List.mem_cons_of_mem _ hd2, h3⟩

/-- Every chunk emitted by parse_file_with_tree_sitter comes from a
loaded grammar, a configured language, one of its entity definitions, a
successfully compiled query and one of that query's matches. -/
theorem parse_chunk_source {languages : List (String × TSLang)}
    {fp lang_ext : String} {content : List Nat}
    {cs : List Chunk} {diags : List Diag} {c : Chunk}
    (h : parse_file_with_tree_sitter languages fp lang_ext content =
      Except.ok (cs, diags))
    (hc : c ∈ cs) :
    ∃ g langName d q,
      alistGet languages lang_ext = some g ∧
      alistGet LANGUAGE_GRAMMARS_CONFIG lang_ext = some langName ∧
      d ∈ (alistGet AST_QUERIES langName).getD [] ∧
      g.query d.query_str = Except.ok q ∧
      ∃ m ∈ q.tsMatches (g.parseTree content),
        processMatch fp d.entity_type d.name_capture_key content m =
          Except.ok (some c) := by
  unfold parse_file_with_tree_sitter at h
  cases hg : alistGet languages lang_ext with
  | none =>
    rw [hg] at h
    dsimp only at h
    simp only [Except.ok.injEq, Prod.mk.injEq] at h
    rw [← h.1] at hc
    simp at hc
  | some g =>
    rw [hg] at h
    dsimp only at h
    cases hl : alistGet LANGUAGE_GRAMMARS_CONFIG lang_ext with
    | none => rw [hl] at h; cases h
    | some langName =>
      rw [hl] at h
      dsimp only at h
      simp only [Except.ok.injEq] at h
      have hcs : (runDefs langName fp content g (g.parseTree content)
          ((alistGet AST_QUERIES langName).getD [])).1 = cs := by rw [h]
      rw [← hcs] at hc
      rcases runDefs_chunks_mem hc with ⟨d, hd, h2⟩
      rcases processEntityDef_chunks_mem h2 with ⟨q, hq, h3⟩
      rcases runMatches_chunks_mem h3 with ⟨m, hm, h4⟩
      exact ⟨g, langName, d, q, rfl, rfl, hd, hq, m, hm, h4⟩

/-- Claim C7: a match whose capture list binds no nodes (either an
empty capture list or capture dictionaries without values) makes the
chunk builder emit no entity and raise no error; the match is silently
discarded and processing of the remaining matches continues unchanged. -/
theorem c7_claim {fp et nk : String} {content : List Nat} {m : TSMatch}
    {dicts : List (List (String × Node))} (rest : List TSMatch)
    (hs : sequenceDicts m.2 = Except.ok dicts)
    (hn : dictNodes dicts = []) :
    processMatch fp et nk content m = Except.ok none ∧
    runMatches fp et nk content (m :: rest) = runMatches fp et nk content rest := by
  have h1 : processMatch fp et nk content m = Except.ok none := by
    unfold processMatch
    by_cases he : m.2.isEmpty
    · rw [if_pos he]
    · rw [if_neg he, hs]
      dsimp only
      rw [hn]
  refine ⟨h1, ?_⟩
  rw [runMatches, h1]

/-- Witness for C7 at the concrete empty match. -/
theorem c7_witness :
    sequenceDicts exEmptyMatch.2 = Except.ok [] ∧
    dictNodes [] = [] ∧
    processMatch "m.py" "CLASS" "name" exContent exEmptyMatch = Except.ok none ∧
    runMatches "m.py" "CLASS" "name" exContent (exEmptyMatch :: [exMatch]) =
      runMatches "m.py" "CLASS" "name" exContent [exMatch] :=
  ⟨rfl, rfl,
   (@c7_claim "m.py" "CLASS" "name" exContent exEmptyMatch [] [exMatch] rfl rfl).1,
   (@c7_claim "m.py" "CLASS" "name" exContent exEmptyMatch [] [exMatch] rfl rfl).2⟩

/-- Claim C8: the per-file pipeline is a deterministic function of the
loaded languages table, the file path, the extension and the content
bytes: two runs on unchanged inputs return identical, identically
ordered results. -/
theorem c8_claim {languages1 languages2 : List (String × TSLang)}
    {fp1 fp2 ext1 ext2 : String} {content1 content2 : List Nat}
    (h1 : languages1 = languages2) (h2 : fp1 = fp2) (h3 : ext1 = ext2)
    (h4 : content1 = content2) :
    parse_file_with_tree_sitter languages1 fp1 ext1 content1 =
      parse_file_with_tree_sitter languages2 fp2 ext2 content2 := by
  rw [h1, h2, h3, h4]

/-- Witness for C8 at the concrete run. -/
theorem c8_witness :
    exLanguages = exLanguages ∧
    parse_file_with_tree_sitter exLanguages "m.py" ".py" exContent =
      parse_file_with_tree_sitter exLanguages "m.py" ".py" exContent :=
  ⟨rfl, c8_claim rfl rfl rfl rfl⟩

/-- One definition run equals its first-loop-free variant: the first
matches loop only folds over the match and capture data with bodies
that end in pass. -/
theorem processEntityDef_eq_noloop (langName fp : String) (content : List Nat)
    (g : TSLang) (root : Nat) (d : EntityDef) :
    processEntityDef langName fp content g root d =
      processEntityDefNoFirstLoop langName fp content g root d := by
  unfold processEntityDef processEntityDefNoFirstLoop
  rfl

/-- The definitions loop equals its first-loop-free variant. -/
theorem runDefs_eq_noloop (langName fp : String) (content : List Nat)
    (g : TSLang) (root : Nat) (defs : List EntityDef) :
    runDefs langName fp content g root defs =
      runDefsNoFirstLoop langName fp content g root defs := by
  induction defs with
  | nil => rfl
  | cons d rest ih =>
    rw [runDefs, runDefsNoFirstLoop, ih, processEntityDef_eq_noloop]

/-- Claim C9: the first loop over query.matches (source lines 210-256,
all of whose bodies end in pass) contributes nothing to the returned
chunk list: parse_file_with_tree_sitter returns the same result as the
version with that loop removed, on every input. -/
theorem c9_claim (languages : List (String × TSLang))
    (fp lang_ext : String) (content : List Nat) :
    parse_file_with_tree_sitter languages fp lang_ext content =
      parse_file_without_first_loop languages fp lang_ext content := by
  unfold parse_file_with_tree_sitter parse_file_without_first_loop
  cases alistGet languages lang_ext with
  | none => rfl
  | some g =>
    cases alistGet LANGUAGE_GRAMMARS_CONFIG lang_ext with
    | none => rfl
    | some langName =>
      dsimp only
      rw [runDefs_eq_noloop]

/-- The inline name-resolution loop of source lines 289-293 returns the
text of the first node bound under the capture label, or the sentinel
Unnamed when no dictionary binds it. -/
theorem resolveName_spec (ds : List (List (String × Node))) (k : String)
    (content : List Nat) :
    resolveName ds k content =
      match firstNameNode ds k with
      | some n => get_node_text n content
      | none => strCodepoints "Unnamed" := by
  induction ds with
  | nil => rfl
  | cons d rest ih =>
    unfold resolveName firstNameNode
    cases alistGet d k with
    | some n => rfl
    | none => exact ih

/-- Claim C2: a match binding at least one node yields a chunk whose
span is the covering span of all bound nodes: the start byte is the
minimum start_byte, the end byte the maximum end_byte; start_line comes
from a node achieving the minimal start byte and end_line from a node
achieving the maximal end byte, each point row converted from 0-indexed
to 1-indexed by adding 1, and the content is the slice at that span. -/
theorem c2_claim {fp et nk : String} {content : List Nat} {m : TSMatch}
    {dicts : List (List (String × Node))} {n0 : Node} {ns : List Node}
    (hs : sequenceDicts m.2 = Except.ok dicts)
    (hn : dictNodes dicts = n0 :: ns) :
    ∃ c, processMatch fp et nk content m = Except.ok (some c) ∧
      ∃ s e,
        (∀ n ∈ dictNodes dicts, s ≤ n.start_byte) ∧
        (∀ n ∈ dictNodes dicts, n.end_byte ≤ e) ∧
        (∃ n ∈ dictNodes dicts, n.start_byte = s ∧ c.start_line = n.start_row + 1) ∧
        (∃ n ∈ dictNodes dicts, n.end_byte = e ∧ c.end_line = n.end_row + 1) ∧
        c.code_content = utf8DecodeWith DecodePolicy.ignore (pySlice content s e) := by
  refine ⟨builtChunk fp et nk content dicts n0 ns, processMatch_emits hs hn,
    (pyMinBy (fun n => n.start_byte) n0 ns).start_byte,
    (pyMaxBy (fun n => n.end_byte) n0 ns).end_byte, ?_, ?_, ?_, ?_, ?_⟩
  · intro n hn2
    rw [hn] at hn2
    exact pyMinBy_le (fun n => n.start_byte) n0 ns n hn2
  · intro n hn2
    rw [hn] at hn2
    exact pyMaxBy_ge (fun n => n.end_byte) n0 ns n hn2
  · refine ⟨pyMinBy (fun n => n.start_byte) n0 ns, ?_, rfl, rfl⟩
    rw [hn]
    exact pyMinBy_mem _ n0 ns
  · refine ⟨pyMaxBy (fun n => n.end_byte) n0 ns, ?_, rfl, rfl⟩
    rw [hn]
    exact pyMaxBy_mem _ n0 ns
  · rfl

/-- Witness for C2 at the concrete one-node match. -/
theorem c2_witness :
    sequenceDicts exMatch.2 = Except.ok [exDictOk] ∧
    dictNodes [exDictOk] = exNode :: [] ∧
    (∃ c, processMatch "m.py" "CLASS" "name" exContent exMatch =
        Except.ok (some c) ∧
      ∃ s e,
        (∀ n ∈ dictNodes [exDictOk], s ≤ n.start_byte) ∧
        (∀ n ∈ dictNodes [exDictOk], n.end_byte ≤ e) ∧
        (∃ n ∈ dictNodes [exDictOk], n.start_byte = s ∧ c.start_line = n.start_row + 1) ∧
        (∃ n ∈ dictNodes [exDictOk], n.end_byte = e ∧ c.end_line = n.end_row + 1) ∧
        c.code_content = utf8DecodeWith DecodePolicy.ignore (pySlice exContent s e)) :=
  ⟨rfl, rfl,
   @c2_claim "m.py" "CLASS" "name" exContent exMatch [exDictOk] exNode [] rfl rfl⟩

/-- Claim C3: every emitted entity carries as entity_name the decoded
text of the first node bound under the name capture label of its
definition across the capture dictionaries of its match, and the
sentinel Unnamed when no dictionary binds that label. -/
theorem c3_claim {languages : List (String × TSLang)}
    {fp lang_ext : String} {content : List Nat}
    {cs : List Chunk} {diags : List Diag} {c : Chunk}
    (h : parse_file_with_tree_sitter languages fp lang_ext content =
      Except.ok (cs, diags))
    (hc : c ∈ cs) :
    ∃ (g : TSLang) (d : EntityDef) (q : TSQuery) (m : TSMatch)
      (dicts : List (List (String × Node))),
      alistGet languages lang_ext = some g ∧
      g.query d.query_str = Except.ok q ∧
      m ∈ q.tsMatches (g.parseTree content) ∧
      processMatch fp d.entity_type d.name_capture_key content m =
        Except.ok (some c) ∧
      sequenceDicts m.2 = Except.ok dicts ∧
      ((∃ n, firstNameNode dicts d.name_capture_key = some n ∧
          c.entity_name = get_node_text n content) ∨
       (firstNameNode dicts d.name_capture_key = none ∧
          c.entity_name = strCodepoints "Unnamed")) := by
  rcases parse_chunk_source h hc with ⟨g, langName, d, q, hg, hl, hd, hq, m, hm, hpm⟩
  rcases processMatch_ok_some hpm with ⟨dicts, n0, ns, hs, hn, hcb⟩
  refine ⟨g, d, q, m, dicts, hg, hq, hm, hpm, hs, ?_⟩
  have hname : c.entity_name = resolveName dicts d.name_capture_key content := by
    rw [hcb]
    rfl
  rw [hname, resolveName_spec]
  cases hf : firstNameNode dicts d.name_capture_key with
  | some n => exact Or.inl ⟨n, rfl, rfl⟩
  | none => exact Or.inr ⟨rfl, rfl⟩

/-- Witness for C3 at the concrete run, where the name capture is bound
to the node spanning the invalid byte, so the decoded name is empty. -/
theorem c3_witness :
    parse_file_with_tree_sitter exLanguages "m.py" ".py" exContent =
      Except.ok ([exChunkClass, exChunkFun], []) ∧
    (∃ (g : TSLang) (d : EntityDef) (q : TSQuery) (m : TSMatch)
      (dicts : List (List (String × Node))),
      alistGet exLanguages ".py" = some g ∧
      g.query d.query_str = Except.ok q ∧
      m ∈ q.tsMatches (g.parseTree exContent) ∧
      processMatch "m.py" d.entity_type d.name_capture_key exContent m =
        Except.ok (some exChunkClass) ∧
      sequenceDicts m.2 = Except.ok dicts ∧
      ((∃ n, firstNameNode dicts d.name_capture_key = some n ∧
          exChunkClass.entity_name = get_node_text n exContent) ∨
       (firstNameNode dicts d.name_capture_key = none ∧
          exChunkClass.entity_name = strCodepoints "Unnamed"))) :=
  ⟨rfl,
   c3_claim
     (show parse_file_with_tree_sitter exLanguages "m.py" ".py" exContent =
        Except.ok ([exChunkClass, exChunkFun], ([] : List Diag)) from rfl)
     (List.mem_cons_self exChunkClass [exChunkFun])⟩

/-- Counterexample to claim C1 as stated: on the file consisting of the
single invalid byte 0xFF, the emitted chunk spans bytes 0 to 1 (the
covering span of the single bound node), its code_content is the
ignore-decoding of that slice (empty), while decoding the same slice
with invalid bytes replaced yields the replacement character U+FFFD, so
code_content is not the replace-decoding of the source slice. -/
theorem c1_counterexample :
    parse_file_with_tree_sitter exLanguages "m.py" ".py" exContent =
      Except.ok ([exChunkClass, exChunkFun], []) ∧
    sequenceDicts exMatch.2 = Except.ok [exDictOk] ∧
    dictNodes [exDictOk] = [exNode] ∧
    exChunkClass.code_content =
      utf8DecodeWith DecodePolicy.ignore
        (pySlice exContent exNode.start_byte exNode.end_byte) ∧
    utf8DecodeWith DecodePolicy.replace
      (pySlice exContent exNode.start_byte exNode.end_byte) = [0xFFFD] ∧
    exChunkClass.code_content ≠
      utf8DecodeWith DecodePolicy.replace
        (pySlice exContent exNode.start_byte exNode.end_byte) := by
  refine ⟨rfl, rfl, rfl, rfl, rfl, ?_⟩
  decide

/-- Claim C1 as amended: every chunk emitted by
parse_file_with_tree_sitter has code_content equal to the source bytes
between the computed covering span of its match, decoded permissively
with invalid byte sequences dropped (Python errors ignore), by a total
decoder that never raises; re-slicing the original bytes at that span
and decoding the same way reproduces code_content exactly, for every
input byte sequence including invalid UTF-8. -/
theorem c1_claim {languages : List (String × TSLang)}
    {fp lang_ext : String} {content : List Nat}
    {cs : List Chunk} {diags : List Diag} {c : Chunk}
    (h : parse_file_with_tree_sitter languages fp lang_ext content =
      Except.ok (cs, diags))
    (hc : c ∈ cs) :
    ∃ (g : TSLang) (d : EntityDef) (q : TSQuery) (m : TSMatch)
      (dicts : List (List (String × Node))),
      alistGet languages lang_ext = some g ∧
      g.query d.query_str = Except.ok q ∧
      m ∈ q.tsMatches (g.parseTree content) ∧
      processMatch fp d.entity_type d.name_capture_key content m =
        Except.ok (some c) ∧
      sequenceDicts m.2 = Except.ok dicts ∧
      ∃ s e,
        (∀ n ∈ dictNodes dicts, s ≤ n.start_byte ∧ n.end_byte ≤ e) ∧
        (∃ n ∈ dictNodes dicts, n.start_byte = s) ∧
        (∃ n ∈ dictNodes dicts, n.end_byte = e) ∧
        c.code_content = utf8DecodeWith DecodePolicy.ignore (pySlice content s e) ∧
        utf8DecodeWith DecodePolicy.ignore (pySlice content s e) = c.code_content := by
  rcases parse_chunk_source h hc with ⟨g, langName, d, q, hg, hl, hd, hq, m, hm, hpm⟩
  rcases processMatch_ok_some hpm with ⟨dicts, n0, ns, hs, hn, hcb⟩
  refine ⟨g, d, q, m, dicts, hg, hq, hm, hpm, hs,
    (pyMinBy (fun n => n.start_byte) n0 ns).start_byte,
    (pyMaxBy (fun n => n.end_byte) n0 ns).end_byte, ?_, ?_, ?_, ?_, ?_⟩
  · intro n hn2
    rw [hn] at hn2
    exact ⟨pyMinBy_le (fun n => n.start_byte) n0 ns n hn2,
           pyMaxBy_ge (fun n => n.end_byte) n0 ns n hn2⟩
  · refine ⟨pyMinBy (fun n => n.start_byte) n0 ns, ?_, rfl⟩
    rw [hn]
    exact pyMinBy_mem _ n0 ns
  · refine ⟨pyMaxBy (fun n => n.end_byte) n0 ns, ?_, rfl⟩
    rw [hn]
    exact pyMaxBy_mem _ n0 ns
  · rw [hcb]
    rfl
  · rw [hcb]
    rfl

/-- Witness for the amended C1 at the concrete run on the invalid
byte. -/
theorem c1_witness :
    parse_file_with_tree_sitter exLanguages "m.py" ".py" exContent =
      Except.ok ([exChunkClass, exChunkFun], []) ∧
    (∃ (g : TSLang) (d : EntityDef) (q : TSQuery) (m : TSMatch)
      (dicts : List (List (String × Node))),
      alistGet exLanguages ".py" = some g ∧
      g.query d.query_str = Except.ok q ∧
      m ∈ q.tsMatches (g.parseTree exContent) ∧
      processMatch "m.py" d.entity_type d.name_capture_key exContent m =
        Except.ok (some exChunkClass) ∧
      sequenceDicts m.2 = Except.ok dicts ∧
      ∃ s e,
        (∀ n ∈ dictNodes dicts, s ≤ n.start_byte ∧ n.end_byte ≤ e) ∧
        (∃ n ∈ dictNodes dicts, n.start_byte = s) ∧
        (∃ n ∈ dictNodes dicts, n.end_byte = e) ∧
        exChunkClass.code_content =
          utf8DecodeWith DecodePolicy.ignore (pySlice exContent s e) ∧
        utf8DecodeWith DecodePolicy.ignore (pySlice exContent s e) =
          exChunkClass.code_content) :=
  ⟨rfl,
   c1_claim
     (show parse_file_with_tree_sitter exLanguages "m.py" ".py" exContent =
        Except.ok ([exChunkClass, exChunkFun], ([] : List Diag)) from rfl)
     (List.mem_cons_self exChunkClass [exChunkFun])⟩

/-- Claim C6: every chunk emitted by parse_file_with_tree_sitter on a
grammar whose nodes are consistent with a monotone byte-offset-to-row
function satisfies 1 le start_line and start_line le end_line, where
start_line comes from the node of minimal start byte and end_line from
the node of maximal end byte of its match. -/
theorem c6_claim (rowOf : Nat → Nat) {languages : List (String × TSLang)}
    {fp lang_ext : String} {content : List Nat} {g : TSLang}
    {cs : List Chunk} {diags : List Diag} {c : Chunk}
    (hmono : Monotone rowOf)
    (hg : alistGet languages lang_ext = some g)
    (hcons : ∀ s q, g.query s = Except.ok q →
      ∀ m ∈ q.tsMatches (g.parseTree content), ∀ pd ∈ m.2,
        ∀ dd, pd = Except.ok dd → ∀ p ∈ dd, NodeConsistent rowOf p.2)
    (h : parse_file_with_tree_sitter languages fp lang_ext content =
      Except.ok (cs, diags))
    (hc : c ∈ cs) :
    1 ≤ c.start_line ∧ c.start_line ≤ c.end_line := by
  rcases parse_chunk_source h hc with ⟨g2, langName, d, q, hg2, hl, hd, hq, m, hm, hpm⟩
  have hgg : g2 = g := by
    rw [hg] at hg2
    injection hg2 with h2
    exact h2.symm
  subst hgg
  rcases processMatch_ok_some hpm with ⟨dicts, n0, ns, hs, hn, hcb⟩
  have hall : ∀ n ∈ dictNodes dicts, NodeConsistent rowOf n := by
    intro n hn2
    rcases dictNodes_mem hn2 with ⟨dd, hdd, p, hp, hpn⟩
    have h3 := sequenceDicts_ok_mem hs dd hdd
    have h4 := hcons d.query_str q hq m hm (Except.ok dd) h3 dd rfl p hp
    rw [hpn] at h4
    exact h4
  have hminMem : pyMinBy (fun n => n.start_byte) n0 ns ∈ dictNodes dicts := by
    rw [hn]
    exact pyMinBy_mem _ n0 ns
  have hmaxMem : pyMaxBy (fun n => n.end_byte) n0 ns ∈ dictNodes dicts := by
    rw [hn]
    exact pyMaxBy_mem _ n0 ns
  have hminC := hall _ hminMem
  have hmaxC := hall _ hmaxMem
  have h1 : (pyMinBy (fun n => n.start_byte) n0 ns).start_byte ≤
      (pyMaxBy (fun n => n.end_byte) n0 ns).start_byte := by
    apply pyMinBy_le (fun n => n.start_byte) n0 ns
    rw [← hn]
    exact hmaxMem
  have h2 : (pyMaxBy (fun n => n.end_byte) n0 ns).start_byte ≤
      (pyMaxBy (fun n => n.end_byte) n0 ns).end_byte := hmaxC.1
  have h3 : (pyMinBy (fun n => n.start_byte) n0 ns).start_row ≤
      (pyMaxBy (fun n => n.end_byte) n0 ns).end_row := by
    rw [hminC.2.1, hmaxC.2.2]
    exact hmono (Nat.le_trans h1 h2)
  constructor
  · rw [hcb]
    exact Nat.succ_le_succ (Nat.zero_le _)
  · rw [hcb]
    exact Nat.succ_le_succ h3

/-- Witness for C6 at the concrete run: the constant row function is
monotone, the single node is consistent with it, and the emitted chunk
has lines 1 and 1. -/
theorem c6_witness :
    Monotone (fun _ : Nat => 0) ∧
    alistGet exLanguages ".py" = some exLang ∧
    (1 ≤ exChunkClass.start_line ∧ exChunkClass.start_line ≤ exChunkClass.end_line) :=
  ⟨monotone_const, rfl,
   c6_claim (fun _ : Nat => 0) monotone_const
     (show alistGet exLanguages ".py" = some exLang from rfl)
     (by
       intro s q hq m hm pd hpd dd hdd p hp
       have hq2 : Except.ok exQuery = Except.ok q := hq
       injection hq2 with hq3
       rw [← hq3] at hm
       have hm2 : m ∈ [exMatch] := hm
       rw [List.mem_singleton.mp hm2] at hpd
       have hpd2 : pd ∈ [Except.ok exDictOk] := hpd
       rw [List.mem_singleton.mp hpd2] at hdd
       injection hdd with hdd2
       rw [← hdd2] at hp
       have hp2 : p ∈ [("name", exNode)] := hp
       rw [List.mem_singleton.mp hp2]
       exact ⟨by decide, rfl, rfl⟩)
     (show parse_file_with_tree_sitter exLanguages "m.py" ".py" exContent =
        Except.ok ([exChunkClass, exChunkFun], ([] : List Diag)) from rfl)
     (List.mem_cons_self exChunkClass [exChunkFun])⟩

/-- The definitions loop distributes over list append. -/
theorem runDefs_append (langName fp : String) (content : List Nat)
    (g : TSLang) (root : Nat) (l1 l2 : List EntityDef) :
    runDefs langName fp content g root (l1 ++ l2) =
      ((runDefs langName fp content g root l1).1 ++
         (runDefs langName fp content g root l2).1,
       (runDefs langName fp content g root l1).2 ++
         (runDefs langName fp content g root l2).2) := by
  induction l1 with
  | nil => simp [runDefs]
  | cons d rest ih => simp [runDefs, ih]

/-- Claim C4: an EntityDefinition whose pattern fails to compile yields
no chunks and one diagnostic carrying the offending pattern and the
language; the failure is non-fatal and the remaining definitions are
processed exactly as if the failing one were absent. Since compilation
is a function of the grammar and the pattern, this holds for every file
of the scan. -/
theorem c4_claim {langName fp : String} {content : List Nat}
    {g : TSLang} {root : Nat} {d : EntityDef} {e : String}
    (h : g.query d.query_str = Except.error e) :
    processEntityDef langName fp content g root d =
      ([], [Diag.queryError d.entity_type fp langName e d.query_str]) ∧
    ∀ ds1 ds2 : List EntityDef,
      (runDefs langName fp content g root (ds1 ++ d :: ds2)).1 =
        (runDefs langName fp content g root (ds1 ++ ds2)).1 ∧
      Diag.queryError d.entity_type fp langName e d.query_str ∈
        (runDefs langName fp content g root (ds1 ++ d :: ds2)).2 := by
  have h1 : processEntityDef langName fp content g root d =
      ([], [Diag.queryError d.entity_type fp langName e d.query_str]) := by
    unfold processEntityDef
    rw [h]
  refine ⟨h1, ?_⟩
  intro ds1 ds2
  constructor
  · have h2 : (d :: ds2) = [d] ++ ds2 := rfl
    rw [h2, runDefs_append, runDefs_append, runDefs_append]
    simp [runDefs, h1]
  · have h2 : (d :: ds2) = [d] ++ ds2 := rfl
    rw [h2, runDefs_append]
    simp [runDefs_append, runDefs, h1]

/-- Witness for C4 at the concrete non-compiling grammar. -/
theorem c4_witness :
    exLangNoCompile.query pyClassDef.query_str =
      Except.error "Invalid node type" ∧
    (processEntityDef "python" "m.py" exContent exLangNoCompile 0 pyClassDef =
      ([], [Diag.queryError pyClassDef.entity_type "m.py" "python"
        "Invalid node type" pyClassDef.query_str]) ∧
     ∀ ds1 ds2 : List EntityDef,
      (runDefs "python" "m.py" exContent exLangNoCompile 0
          (ds1 ++ pyClassDef :: ds2)).1 =
        (runDefs "python" "m.py" exContent exLangNoCompile 0 (ds1 ++ ds2)).1 ∧
      Diag.queryError pyClassDef.entity_type "m.py" "python"
          "Invalid node type" pyClassDef.query_str ∈
        (runDefs "python" "m.py" exContent exLangNoCompile 0
          (ds1 ++ pyClassDef :: ds2)).2) :=
  ⟨rfl,
   c4_claim
     (show exLangNoCompile.query pyClassDef.query_str =
        Except.error "Invalid node type" from rfl)⟩

/-- A raising match after an all-successful prefix makes the second
matches loop return exactly the chunks of the prefix together with the
error, discarding the remainder of the match list. -/
theorem runMatches_prefix_error {fp et nk : String} {content : List Nat}
    {pre : List TSMatch} {mbad : TSMatch} (post : List TSMatch) {e : String}
    (hpre : ∀ m ∈ pre, ∃ r, processMatch fp et nk content m = Except.ok r)
    (hbad : processMatch fp et nk content mbad = Except.error e) :
    runMatches fp et nk content (pre ++ mbad :: post) =
      ((runMatches fp et nk content pre).1, some e) := by
  induction pre with
  | nil => simp [runMatches, hbad]
  | cons m rest ih =>
    rcases hpre m (List.mem_cons_self _ _) with ⟨r, hr⟩
    have hpre2 : ∀ m2 ∈ rest, ∃ r2,
        processMatch fp et nk content m2 = Except.ok r2 :=
      fun m2 hm2 => hpre m2 (List.mem_cons_of_mem _ hm2)
    cases r with
    | none => simp [List.cons_append, runMatches, hr, ih hpre2]
    | some c => simp [List.cons_append, runMatches, hr, ih hpre2]

/-- Claim C10: per-definition processing is not atomic on error. When a
match raises after earlier matches of the same definition have already
been converted to chunks, those chunks are kept (no rollback), the rest
of that definition's matches contribute nothing, the caught error is
logged, and the subsequent definitions still run. -/
theorem c10_claim {langName fp : String} {content : List Nat}
    {g : TSLang} {root : Nat} {d : EntityDef} {q : TSQuery}
    {pre : List TSMatch} {mbad : TSMatch} {post : List TSMatch} {e : String}
    (restDefs : List EntityDef)
    (hq : g.query d.query_str = Except.ok q)
    (hm : q.tsMatches root = pre ++ mbad :: post)
    (hpre : ∀ m ∈ pre, ∃ r,
      processMatch fp d.entity_type d.name_capture_key content m = Except.ok r)
    (hbad : processMatch fp d.entity_type d.name_capture_key content mbad =
      Except.error e) :
    processEntityDef langName fp content g root d =
      ((runMatches fp d.entity_type d.name_capture_key content pre).1,
       [Diag.queryError d.entity_type fp langName e d.query_str]) ∧
    runDefs langName fp content g root (d :: restDefs) =
      ((runMatches fp d.entity_type d.name_capture_key content pre).1 ++
         (runDefs langName fp content g root restDefs).1,
       Diag.queryError d.entity_type fp langName e d.query_str ::
         (runDefs langName fp content g root restDefs).2) := by
  have hrun := runMatches_prefix_error post hpre hbad
  have h1 : processEntityDef langName fp content g root d =
      ((runMatches fp d.entity_type d.name_capture_key content pre).1,
       [Diag.queryError d.entity_type fp langName e d.query_str]) := by
    unfold processEntityDef
    rw [hq]
    dsimp only
    rw [hm, hrun]
  refine ⟨h1, ?_⟩
  rw [runDefs, h1]
  simp

/-- Witness for C10 at the concrete run: one good match before an
ill-shaped one, then another good match, followed by one more
definition. -/
theorem c10_witness :
    exLangBad.query pyClassDef.query_str = Except.ok exQueryBad ∧
    exQueryBad.tsMatches 0 = [exMatch] ++ exBadMatch :: [exMatch] ∧
    processMatch "m.py" pyClassDef.entity_type pyClassDef.name_capture_key
      exContent exBadMatch = Except.error "AttributeError" ∧
    (processEntityDef "python" "m.py" exContent exLangBad 0 pyClassDef =
      ((runMatches "m.py" pyClassDef.entity_type pyClassDef.name_capture_key
          exContent [exMatch]).1,
       [Diag.queryError pyClassDef.entity_type "m.py" "python" "AttributeError"
          pyClassDef.query_str]) ∧
     runDefs "python" "m.py" exContent exLangBad 0 (pyClassDef :: [pyFunDef]) =
      ((runMatches "m.py" pyClassDef.entity_type pyClassDef.name_capture_key
          exContent [exMatch]).1 ++
         (runDefs "python" "m.py" exContent exLangBad 0 [pyFunDef]).1,
       Diag.queryError pyClassDef.entity_type "m.py" "python" "AttributeError"
          pyClassDef.query_str ::
         (runDefs "python" "m.py" exContent exLangBad 0 [pyFunDef]).2)) :=
  ⟨rfl, rfl, rfl,
   c10_claim [pyFunDef]
     (show exLangBad.query pyClassDef.query_str = Except.ok exQueryBad from rfl)
     (show exQueryBad.tsMatches 0 = [exMatch] ++ exBadMatch :: [exMatch] from rfl)
     (by
       intro m hm2
       rw [List.mem_singleton.mp hm2]
       exact ⟨some exChunkClass, rfl⟩)
     (show processMatch "m.py" pyClassDef.entity_type pyClassDef.name_capture_key
        exContent exBadMatch = Except.error "AttributeError" from rfl)⟩

/-- A successful association-list lookup exhibits a member of the
list. -/
theorem alistGet_some_mem {β : Type} {l : List (String × β)} {k : String} {v : β}
    (h : alistGet l k = some v) : (k, v) ∈ l := by
  induction l with
  | nil => simp [alistGet] at h
  | cons p ps ih =>
    by_cases hk : p.1 = k
    · rw [alistGet, if_pos hk] at h
      injection h with h2
      have hp : p = (k, v) := by
        rcases p with ⟨a, b⟩
        simp only at hk h2
        rw [hk, h2]
      rw [← hp]
      exact List.mem_cons_self _ _
    · rw [alistGet, if_neg hk] at h
      exact List.mem_cons_of_mem _ (ih h)

/-- Every entry of the loaded-languages list comes from a configured
extension whose language loaded successfully. -/
theorem loadLangList_mem {loadLang : String → Except String TSLang}
    {cfg : List (String × String)} {ext : String} {g : TSLang}
    (h : (ext, g) ∈ (loadLangList loadLang cfg).1) :
    ∃ lname, (ext, lname) ∈ cfg ∧ loadLang lname = Except.ok g := by
  induction cfg with
  | nil => simp [loadLangList] at h
  | cons p rest ih =>
    by_cases hc : AST_PARSE_EXTS.contains p.1
    · rw [loadLangList, if_pos hc] at h
      cases hl : loadLang p.2 with
      | ok g0 =>
        rw [hl] at h
        dsimp only at h
        rcases List.mem_cons.mp h with h2 | h2
        · have hp : p = (ext, p.2) := by
            rcases p with ⟨a, b⟩
            injection h2 with h3 h4
            rw [h3]
          refine ⟨p.2, ?_, ?_⟩
          · rw [← hp]; exact List.mem_cons_self _ _
          · rw [hl]
            injection h2 with h3 h4
            rw [h4]
        · rcases ih h2 with ⟨lname, hmem, hok⟩
          exact ⟨lname, List.mem_cons_of_mem _ hmem, hok⟩
      | error e =>
        rw [hl] at h
        dsimp only at h
        rcases ih h with ⟨lname, hmem, hok⟩
        exact ⟨lname, List.mem_cons_of_mem _ hmem, hok⟩
    · rw [loadLangList, if_neg hc] at h
      rcases ih h with ⟨lname, hmem, hok⟩
      exact ⟨lname, List.mem_cons_of_mem _ hmem, hok⟩

/-- When the python grammar fails to load, the loaded-languages table
has no entry for the .py extension. -/
theorem loadLangList_no_py {loadLang : String → Except String TSLang}
    {err : String} (hload : loadLang "python" = Except.error err) :
    alistGet (loadLangList loadLang LANGUAGE_GRAMMARS_CONFIG).1 ".py" = none := by
  cases halist : alistGet (loadLangList loadLang LANGUAGE_GRAMMARS_CONFIG).1 ".py" with
  | none => rfl
  | some g =>
    exfalso
    rcases loadLangList_mem (alistGet_some_mem halist) with ⟨lname, hmem, hok⟩
    simp only [LANGUAGE_GRAMMARS_CONFIG, List.mem_cons, List.not_mem_nil,
      or_false, Prod.mk.injEq] at hmem
    rcases hmem with ⟨h1, h2⟩ | ⟨h1, h2⟩ | ⟨h1, h2⟩ | ⟨h1, h2⟩
    · exact absurd h1 (by decide)
    · rw [h2] at hok
      rw [hload] at hok
      cases hok
    · exact absurd h1 (by decide)
    · exact absurd h1 (by decide)

/-- One definition run never emits a grammar-load-failure diagnostic. -/
theorem countP_loadErr_processEntityDef (L langName fp : String)
    (content : List Nat) (g : TSLang) (root : Nat) (d : EntityDef) :
    List.countP (isLoadErrorFor L)
      (processEntityDef langName fp content g root d).2 = 0 := by
  unfold processEntityDef
  cases hq : g.query d.query_str with
  | error e => simp [isLoadErrorFor]
  | ok q =>
    dsimp only
    cases hr : (runMatches fp d.entity_type d.name_capture_key content
        (q.tsMatches root)).2 with
    | none => simp
    | some e => simp [isLoadErrorFor]

/-- The definitions loop never emits a grammar-load-failure
diagnostic. -/
theorem countP_loadErr_runDefs (L langName fp : String) (content : List Nat)
    (g : TSLang) (root : Nat) (defs : List EntityDef) :
    List.countP (isLoadErrorFor L)
      (runDefs langName fp content g root defs).2 = 0 := by
  induction defs with
  | nil => simp [runDefs]
  | cons d rest ih =>
    rw [runDefs]
    dsimp only
    rw [List.countP_append, ih, countP_loadErr_processEntityDef]

/-- parse_file_with_tree_sitter never emits a grammar-load-failure
diagnostic. -/
theorem countP_loadErr_parse {L : String} {languages : List (String × TSLang)}
    {fp lang_ext : String} {content : List Nat}
    {cs : List Chunk} {ds : List Diag}
    (h : parse_file_with_tree_sitter languages fp lang_ext content =
      Except.ok (cs, ds)) :
    List.countP (isLoadErrorFor L) ds = 0 := by
  unfold parse_file_with_tree_sitter at h
  cases hg : alistGet languages lang_ext with
  | none =>
    rw [hg] at h
    dsimp only at h
    simp only [Except.ok.injEq, Prod.mk.injEq] at h
    rw [← h.2]
    simp [isLoadErrorFor]
  | some g =>
    rw [hg] at h
    dsimp only at h
    cases hl : alistGet LANGUAGE_GRAMMARS_CONFIG lang_ext with
    | none => rw [hl] at h; cases h
    | some langName =>
      rw [hl] at h
      dsimp only at h
      simp only [Except.ok.injEq] at h
      have hds : (runDefs langName fp content g (g.parseTree content)
          ((alistGet AST_QUERIES langName).getD [])).2 = ds := by rw [h]
      rw [← hds]
      exact countP_loadErr_runDefs L langName fp content g _ _


/-- The scan loop over files never emits a grammar-load-failure
diagnostic: load failures are reported only by the loader, not per
file. -/
theorem countP_loadErr_scanFiles (L : String)
    (langs : List (String × TSLang)) (files : List FileEntry) :
    List.countP (isLoadErrorFor L) (scanFiles langs files).2 = 0 := by
  induction files with
  | nil => simp [scanFiles]
  | cons f fs ih =>
    rw [scanFiles]
    dsimp only
    rw [List.countP_append, ih, Nat.add_zero]
    unfold scanFileStep
    cases hA : AST_PARSE_EXTS.contains f.ext with
    | false => simp [isLoadErrorFor]
    | true =>
      cases hS : (alistGet langs f.ext).isSome with
      | false => simp [isLoadErrorFor]
      | true =>
        simp only [Bool.true_and, Bool.and_self, if_true]
        cases hc : f.content with
        | error e => simp [isLoadErrorFor]
        | ok bs =>
          dsimp only
          cases hb : bs.isEmpty with
          | true => simp [isLoadErrorFor]
          | false =>
            rw [if_neg (by simp)]
            cases hp : parse_file_with_tree_sitter langs f.relPath f.ext bs with
            | error e => simp [isLoadErrorFor]
            | ok r =>
              dsimp only
              rw [List.countP_cons]
              have hr : parse_file_with_tree_sitter langs f.relPath f.ext bs =
                  Except.ok (r.1, r.2) := by rw [hp]
              rw [countP_loadErr_parse hr]
              simp [isLoadErrorFor]

/-- When the python grammar fails to load, the loader emits exactly one
load-failure diagnostic mentioning the language python, whatever the
other grammars do. -/
theorem countP_loadErr_loadLangList {loadLang : String → Except String TSLang}
    {err : String} (hload : loadLang "python" = Except.error err) :
    List.countP (isLoadErrorFor "python")
      (loadLangList loadLang LANGUAGE_GRAMMARS_CONFIG).2 = 1 := by
  cases hj : loadLang "java" <;> cases hjs : loadLang "javascript" <;>
    cases hts : loadLang "typescript" <;>
      simp +decide [LANGUAGE_GRAMMARS_CONFIG, loadLangList, hj, hjs, hts, hload,
        isLoadErrorFor, List.countP_cons,
        show (".java" : String) ∈ AST_PARSE_EXTS from by decide,
        show (".py" : String) ∈ AST_PARSE_EXTS from by decide,
        show (".js" : String) ∈ AST_PARSE_EXTS from by decide,
        show (".ts" : String) ∈ AST_PARSE_EXTS from by decide]

/-- Files with the .py extension contribute nothing to the chunk list
when the languages table has no .py entry: removing them leaves the
chunk output unchanged. -/
theorem scanFiles_filter_py {langs : List (String × TSLang)}
    (hpy : alistGet langs ".py" = none) (files : List FileEntry) :
    (scanFiles langs files).1 =
      (scanFiles langs (files.filter (fun f => f.ext != ".py"))).1 := by
  induction files with
  | nil => rfl
  | cons f fs ih =>
    by_cases hB : f.ext = ".py"
    · have hfilter : (f :: fs).filter (fun f => f.ext != ".py") =
          fs.filter (fun f => f.ext != ".py") := by
        rw [List.filter_cons, if_neg (by simp [hB])]
      have hstep : (scanFileStep langs f).1 = [] := by
        unfold scanFileStep
        rw [hB, hpy]
        simp [show (".py" : String) ∈ AST_PARSE_EXTS from by decide]
      rw [hfilter, ← ih, scanFiles]
      dsimp only
      rw [hstep, List.nil_append]
    · have hfilter : (f :: fs).filter (fun f => f.ext != ".py") =
          f :: fs.filter (fun f => f.ext != ".py") := by
        rw [List.filter_cons, if_pos (by simp [hB])]
      rw [hfilter, scanFiles, scanFiles]
      dsimp only
      rw [ih]

/-- Claim C5: when the python grammar fails to load, the load failure
is reported exactly once per scan for that language (independent of the
number of files), and every .py file produces zero entities while the
scan continues over the remaining files: the chunk output equals the
output on the file list with the .py files removed. -/
theorem c5_claim (loadLang : String → Except String TSLang)
    (files : List FileEntry) {err : String}
    (hload : loadLang "python" = Except.error err) :
    List.countP (isLoadErrorFor "python") (scan true loadLang files).2 = 1 ∧
    (scan true loadLang files).1 =
      (scan true loadLang (files.filter (fun f => f.ext != ".py"))).1 := by
  have hpy := loadLangList_no_py hload
  constructor
  · have hscan2 : (scan true loadLang files).2 =
        ((loadLangList loadLang LANGUAGE_GRAMMARS_CONFIG).2 ++
          (if !(!(loadLangList loadLang LANGUAGE_GRAMMARS_CONFIG).1.isEmpty) &&
              LANGUAGE_GRAMMARS_CONFIG.any (fun p => AST_PARSE_EXTS.contains p.1)
           then [Diag.incompleteWarning] else [])) ++
         (scanFiles (loadLangList loadLang LANGUAGE_GRAMMARS_CONFIG).1 files).2 := rfl
    rw [hscan2, List.countP_append, List.countP_append]
    rw [countP_loadErr_loadLangList hload, countP_loadErr_scanFiles]
    have hwarn : List.countP (isLoadErrorFor "python")
        (if !(!(loadLangList loadLang LANGUAGE_GRAMMARS_CONFIG).1.isEmpty) &&
            LANGUAGE_GRAMMARS_CONFIG.any (fun p => AST_PARSE_EXTS.contains p.1)
         then [Diag.incompleteWarning] else []) = 0 := by
      split
      · simp [isLoadErrorFor]
      · simp
    rw [hwarn]
  · have hscan1 : (scan true loadLang files).1 =
        (scanFiles (loadLangList loadLang LANGUAGE_GRAMMARS_CONFIG).1 files).1 := rfl
    have hscan1b : (scan true loadLang
          (files.filter (fun f => f.ext != ".py"))).1 =
        (scanFiles (loadLangList loadLang LANGUAGE_GRAMMARS_CONFIG).1
          (files.filter (fun f => f.ext != ".py"))).1 := rfl
    rw [hscan1, hscan1b]
    exact scanFiles_filter_py hpy files

/-- Witness for C5 at the concrete loader whose python grammar fails,
over a java file, a python file and a ruby file. -/
theorem c5_witness :
    exLoadLang "python" = Except.error "Incompatible Language version" ∧
    List.countP (isLoadErrorFor "python") (scan true exLoadLang exFiles).2 = 1 ∧
    (scan true exLoadLang exFiles).1 =
      (scan true exLoadLang (exFiles.filter (fun f => f.ext != ".py"))).1 :=
  ⟨rfl,
   (c5_claim exLoadLang exFiles
     (show exLoadLang "python" = Except.error "Incompatible Language version"
       from rfl)).1,
   (c5_claim exLoadLang exFiles
     (show exLoadLang "python" = Except.error "Incompatible Language version"
       from rfl)).2⟩
